import Mathlib

set_option maxRecDepth 4000

/-!
# H-2 back wages by employer: verified embedding

A shallow embedding of the notebook `top-employer-back-wages.ipynb`, which
computes, for WHISARD investigations concluded 2010-2014, the employers owing
the greatest back wages to H-2 guest workers.  Tables are lists of structures,
pandas boolean-mask filters become `List.filter`, the index join becomes a
`find?` lookup, `groupby` becomes grouping over the deduplicated sorted key
list, and the notebook's `assert` becomes an `Except.error`.  Monetary amounts
are rationals; nullable columns are `Option`.
-/

namespace H2BackWages

/-- One WHISARD investigation case (table `cases`): its identifier and the
year in which it was concluded (`DATE_CONCLUDED_YEAR`). -/
structure Case where
  case_id : String
  date_concluded_year : Int
deriving DecidableEq

/-- One employer record (table `employers`, columns kept by `employer_basics`):
case identifier, resolved employer identifier, and the legal name (nullable). -/
structure EmployerRecord where
  case_id : String
  employer_id : String
  er_legal_name : Option String
deriving DecidableEq

/-- One violation row (table `violations`): case identifier, act/category code
(`ACT_ID`), record-type flag (`ER_EE_VIOL`, `"E"` = employee), whether the
violation was found, its description, and the assessed back wages
(`AMT_BW_ASSESSED`, nullable). -/
structure Violation where
  case_id : String
  act_id : String
  er_ee_viol : String
  violation_found : Bool
  violation_desc : String
  amt_bw_assessed : Option ℚ
deriving DecidableEq

/-- The three loaded tables (`loaders.load_cases/load_employers/load_violations`). -/
structure Database where
  cases : List Case
  employers : List EmployerRecord
  violations : List Violation

/-- A violation row after the left join with `employer_basics`: the employer
columns are nullable because a case with no employer record yields nulls. -/
structure JoinedViolation where
  case_id : String
  act_id : String
  er_ee_viol : String
  violation_found : Bool
  violation_desc : String
  amt_bw_assessed : Option ℚ
  employer_id : Option String
  er_legal_name : Option String
deriving DecidableEq

/-- One output row of the aggregation stage, keyed by employer identifier. -/
structure EmployerAggregate where
  employer_id : String
  h2_backwages : ℚ
  names : String
deriving DecidableEq

/-- Table `cases`: the case table restricted to conclusion years 2010-2014,
inclusive on both ends (`DATE_CONCLUDED_YEAR >= 2010 & <= 2014`). -/
def cases (db : Database) : List Case :=
  db.cases.filter fun c =>
    decide (2010 ≤ c.date_concluded_year) && decide (c.date_concluded_year ≤ 2014)

/-- Table `employer_basics`: the employer table indexed by `CASE_ID`; looking up a
case identifier returns its employer record, if any. -/
def employer_basics (db : Database) (cid : String) : Option EmployerRecord :=
  db.employers.find? fun e => e.case_id == cid

/-- The boolean mask of the violation-selection cell: `ACT_ID` in
`["H2A", "H2B"]`, `CASE_ID` in the restricted case table, `violation_found`
true, and `ER_EE_VIOL == "E"`. -/
def violationFilter (db : Database) (v : Violation) : Bool :=
  (v.act_id == "H2A" || v.act_id == "H2B") &&
  (cases db).any (fun c => c.case_id == v.case_id) &&
  v.violation_found &&
  (v.er_ee_viol == "E")

/-- The left join with `employer_basics` on `CASE_ID`: employer columns are
taken from the matching employer record, or null when there is none. -/
def joinEmployer (db : Database) (v : Violation) : JoinedViolation :=
  { case_id := v.case_id
    act_id := v.act_id
    er_ee_viol := v.er_ee_viol
    violation_found := v.violation_found
    violation_desc := v.violation_desc
    amt_bw_assessed := v.amt_bw_assessed
    employer_id := (employer_basics db v.case_id).map fun e => e.employer_id
    er_legal_name := (employer_basics db v.case_id).bind fun e => e.er_legal_name }

/-- Table `h2_employee_violations`: the filter-stage output, one joined row per
violation passing the mask. -/
def h2_employee_violations (db : Database) : List JoinedViolation :=
  (db.violations.filter (violationFilter db)).map (joinEmployer db)

/-- List `non_guestworker_descs`: the hand-maintained list of back-wage violation
descriptions that pertain to U.S. rather than H-2 workers. -/
def non_guestworker_descs : List String :=
  [ "17 Preferential treatment given to H-2A workers",
    "02 Unlawful rejection of US workers (2008 & 2010 Rules)",
    "Requirement to Hire U.S. Workers - ER failed to properly hire or rehire U.S. workers",
    "Layoff- ER improperly laid off similarly employed U.S. workers within 120 days of date of need, unless employee refused or was lawfully rejected",
    "Job Opportunity - (U.S. workers) - ER failed to offer U.S. workers bona fide, full-time temp. position due to inequitable qualification requirements",
    "Terms and Working Conditions for U.S. Workers - ER failed to offer terms and working conditions as required" ]

/-- The exclusion-list entries that never occur among the descriptions of the
filter-stage output: the set difference checked by the notebook's `assert`. -/
def missingDescs (db : Database) : List String :=
  non_guestworker_descs.filter fun d =>
    !((h2_employee_violations db).any fun r => r.violation_desc == d)

/-- The message carried by the notebook's failed assertion.  The source is a
bare Python `assert(... == 0)`, so the raised `AssertionError` carries an
empty message. -/
def assertionMessage : String := ""

/-- Table `h2_guestworker_violations`: the exclusion-stage output, dropping every
joined row whose description is an exact member of `non_guestworker_descs`. -/
def h2_guestworker_violations (db : Database) : List JoinedViolation :=
  (h2_employee_violations db).filter fun r =>
    !(non_guestworker_descs.contains r.violation_desc)

/-- Reducer `join_unique_strings`: nulls to `""`, deduplicate, sort, join with `" | "`. -/
def join_unique_strings (series : List (Option String)) : String :=
  String.intercalate " | "
    (((series.map fun o => o.getD "").dedup).insertionSort (· ≤ ·))

/-- The group keys of `groupby("employer_id")`: the distinct non-null employer
identifiers of the exclusion-stage output, in ascending order (pandas sorts
group keys and drops null keys). -/
def groupKeys (db : Database) : List String :=
  (((h2_guestworker_violations db).filterMap fun r => r.employer_id).dedup).insertionSort (· ≤ ·)

/-- The rows of one `groupby("employer_id")` group. -/
def groupRows (db : Database) (id : String) : List JoinedViolation :=
  (h2_guestworker_violations db).filter fun r => r.employer_id == some id

/-- The aggregate row of one employer group: the sum of assessed back wages
(pandas `sum` skips nulls, so nulls contribute zero) and the joined distinct
legal names. -/
def mkAggregate (db : Database) (id : String) : EmployerAggregate :=
  { employer_id := id
    h2_backwages := ((groupRows db id).map fun r => r.amt_bw_assessed.getD 0).sum
    names := join_unique_strings ((groupRows db id).map fun r => r.er_legal_name) }

/-- Table `employer_aggregates`: one aggregate row per group key. -/
def employer_aggregates (db : Database) : List EmployerAggregate :=
  (groupKeys db).map (mkAggregate db)

/-- The threshold mask of the ranking stage: `h2_backwages >= 100000`. -/
def thresholdKeep (a : EmployerAggregate) : Bool :=
  decide ((100000 : ℚ) ≤ a.h2_backwages)

/-- Relation of the final sort: `a` ranks at or above `b` (descending totals). -/
def rankedAbove (a b : EmployerAggregate) : Prop :=
  b.h2_backwages ≤ a.h2_backwages

instance : DecidableRel rankedAbove :=
  fun a b => inferInstanceAs (Decidable (b.h2_backwages ≤ a.h2_backwages))

instance : IsTotal EmployerAggregate rankedAbove :=
  ⟨fun a b => le_total b.h2_backwages a.h2_backwages⟩

instance : IsTrans EmployerAggregate rankedAbove :=
  ⟨fun _ _ _ h1 h2 => le_trans h2 h1⟩

/-- Table `top_total_h2_backwages`: aggregates with at least 100000 in back wages,
sorted descending by `h2_backwages`. -/
def top_total_h2_backwages (db : Database) : List EmployerAggregate :=
  ((employer_aggregates db).filter thresholdKeep).insertionSort rankedAbove

/-- The whole notebook run: the assertion checks that every exclusion-list
entry occurs among the filter-stage descriptions; on failure the run aborts
before the exclusion and aggregation cells, producing no output table. -/
def pipeline (db : Database) : Except String (List EmployerAggregate) :=
  if (missingDescs db).isEmpty then Except.ok (top_total_h2_backwages db)
  else Except.error assertionMessage

/-- A violation qualifies for employer `id`: it passes the filter-stage mask,
its description is not excluded, and its case resolves to employer `id`. -/
def qualifies (db : Database) (id : String) (v : Violation) : Bool :=
  violationFilter db v &&
  !(non_guestworker_descs.contains v.violation_desc) &&
  (((employer_basics db v.case_id).map fun e => e.employer_id) == some id)

/-- Naive independent recomputation of an employer's back-wage total, straight
from the input violation table: the sum of `back_wages_assessed` (nulls as
zero) over all qualifying violations. -/
def naiveBackwages (db : Database) (id : String) : ℚ :=
  ((db.violations.filter (qualifies db id)).map fun v => v.amt_bw_assessed.getD 0).sum

/-- Predicate for a message naming an entry: `entry` occurs verbatim inside `msg`. -/
def msgMentions (msg entry : String) : Prop :=
  ∃ pre post : String, msg = pre ++ entry ++ post

/-! ## Concrete sample databases -/

/-- A database on which the whole notebook runs successfully: one case in the
window, its employer record, one large guest-worker violation, and one
violation per exclusion-list entry so that the coverage assertion passes. -/
def coverViolation (d : String) : Violation :=
  ⟨"C1", "H2A", "E", true, d, none⟩

def wBig : Violation :=
  ⟨"C1", "H2B", "E", true, "09 Back wages due", some 150000⟩

def wdb : Database :=
  { cases := [⟨"C1", 2012⟩]
    employers := [⟨"C1", "11-1111111", some "Acme Inc."⟩]
    violations := wBig :: non_guestworker_descs.map coverViolation }

/-- The empty database: every exclusion-list entry is missing from it. -/
def emptyDb : Database :=
  { cases := [], employers := [], violations := [] }

/-- Two cases for the same employer identifier with two distinct legal-name
spellings. -/
def db6 : Database :=
  { cases := [⟨"C1", 2012⟩, ⟨"C2", 2013⟩]
    employers := [⟨"C1", "E1", some "Acme, Inc."⟩, ⟨"C2", "E1", some "Acme Inc."⟩]
    violations := [⟨"C1", "H2A", "E", true, "d1", some 10⟩,
                   ⟨"C2", "H2B", "E", true, "d2", some 5⟩] }

/-- A database with a qualifying violation whose case has no employer record. -/
def dbMiss : Database :=
  { cases := [⟨"C9", 2012⟩]
    employers := []
    violations := [⟨"C9", "H2A", "E", true, "d9", some 7⟩] }

def vMiss : Violation := ⟨"C9", "H2A", "E", true, "d9", some 7⟩

/-- A database whose single employer group has only a null legal name. -/
def dbNull : Database :=
  { cases := [⟨"C1", 2012⟩]
    employers := [⟨"C1", "E1", none⟩]
    violations := [⟨"C1", "H2A", "E", true, "d", some 3⟩] }

/-! ## Helper lemmas -/

lemma bool_and_rot (a b c : Bool) : ((c && b) && a) = ((a && b) && c) := by
  cases a <;> cases b <;> cases c <;> rfl

/-- A group's rows are exactly the joined images of the qualifying violations. -/
lemma groupRows_eq (db : Database) (id : String) :
    groupRows db id = (db.violations.filter (qualifies db id)).map (joinEmployer db) := by
  unfold groupRows h2_guestworker_violations h2_employee_violations
  rw [List.filter_filter, List.filter_map, List.filter_filter]
  refine congrArg _ (List.filter_congr fun v _ => ?_)
  show ((((employer_basics db v.case_id).map fun e => e.employer_id) == some id &&
      !(non_guestworker_descs.contains v.violation_desc)) && violationFilter db v) = _
  rw [qualifies, bool_and_rot]

/-- A group's back-wage sum agrees with the naive recomputation. -/
lemma groupRows_sum (db : Database) (id : String) :
    ((groupRows db id).map fun r => r.amt_bw_assessed.getD 0).sum = naiveBackwages db id := by
  rw [groupRows_eq, List.map_map, naiveBackwages]
  rfl

lemma mem_h2_employee {db : Database} {r : JoinedViolation} :
    r ∈ h2_employee_violations db ↔
      ∃ v ∈ db.violations, violationFilter db v = true ∧ r = joinEmployer db v := by
  simp only [h2_employee_violations, List.mem_map, List.mem_filter]
  constructor
  · rintro ⟨v, ⟨hv, hf⟩, rfl⟩
    exact ⟨v, hv, hf, rfl⟩
  · rintro ⟨v, hv, hf, rfl⟩
    exact ⟨v, ⟨hv, hf⟩, rfl⟩

lemma mem_groupRows {db : Database} {id : String} {r : JoinedViolation} :
    r ∈ groupRows db id ↔ r ∈ h2_guestworker_violations db ∧ r.employer_id = some id := by
  simp [groupRows, List.mem_filter]

lemma mem_h2_guestworker {db : Database} {r : JoinedViolation} :
    r ∈ h2_guestworker_violations db ↔
      r ∈ h2_employee_violations db ∧ r.violation_desc ∉ non_guestworker_descs := by
  simp [h2_guestworker_violations, List.mem_filter]

lemma mem_groupKeys {db : Database} {id : String} :
    id ∈ groupKeys db ↔ ∃ r ∈ h2_guestworker_violations db, r.employer_id = some id := by
  rw [groupKeys, List.mem_insertionSort, List.mem_dedup, List.mem_filterMap]

lemma mem_employer_aggregates {db : Database} {a : EmployerAggregate} :
    a ∈ employer_aggregates db ↔ ∃ id ∈ groupKeys db, a = mkAggregate db id := by
  simp only [employer_aggregates, List.mem_map, eq_comm]

lemma mem_top_total {db : Database} {a : EmployerAggregate} :
    a ∈ top_total_h2_backwages db ↔
      a ∈ employer_aggregates db ∧ (100000 : ℚ) ≤ a.h2_backwages := by
  rw [top_total_h2_backwages, List.mem_insertionSort, List.mem_filter,
    thresholdKeep, decide_eq_true_iff]

/-! ## Claims -/

/-- C1: for every employer identifier present in the output table,
`h2_backwages` equals the exact arithmetic sum of `back_wages_assessed` over
all input violations that resolve to that identifier and pass both the filter
stage and the exclusion stage, with null amounts contributing zero. -/
theorem backwages_sum_invariant (db : Database) (out : List EmployerAggregate)
    (a : EmployerAggregate) (hok : pipeline db = Except.ok out) (ha : a ∈ out) :
    a.h2_backwages = naiveBackwages db a.employer_id := by
  have hout : out = top_total_h2_backwages db := by
    rw [pipeline] at hok
    split at hok
    · exact (Except.ok.injEq _ _).mp hok |>.symm
    · exact absurd hok (by simp)
  subst hout
  obtain ⟨hag, -⟩ := mem_top_total.mp ha
  obtain ⟨id, -, rfl⟩ := mem_employer_aggregates.mp hag
  exact groupRows_sum db id

theorem backwages_sum_invariant_witness :
    (⟨"11-1111111", 150000, "Acme Inc."⟩ : EmployerAggregate).h2_backwages =
      naiveBackwages wdb "11-1111111" :=
  backwages_sum_invariant wdb [⟨"11-1111111", 150000, "Acme Inc."⟩] _
    (by with_unfolding_all rfl) (List.mem_singleton.mpr rfl)

/-- C2: the filter stage keeps exactly the violations whose category code is
in `{H2A, H2B}`, whose case identifier belongs to a case concluded in
2010-2014 (inclusive on both ends), whose outcome flag is true, and whose
record-type flag is the employee value; in particular no row of the filter
stage output has a record type other than employee. -/
theorem filter_stage_spec (db : Database) (v : Violation) :
    (violationFilter db v = true ↔
      ((v.act_id = "H2A" ∨ v.act_id = "H2B") ∧
       (∃ c ∈ db.cases, c.case_id = v.case_id ∧
          2010 ≤ c.date_concluded_year ∧ c.date_concluded_year ≤ 2014) ∧
       v.violation_found = true ∧ v.er_ee_viol = "E")) ∧
    (∀ r ∈ h2_employee_violations db, r.er_ee_viol = "E") := by
  constructor
  · rw [violationFilter]
    simp only [Bool.and_eq_true, Bool.or_eq_true, beq_iff_eq, List.any_eq_true,
      cases, List.mem_filter, Bool.and_eq_true, decide_eq_true_iff]
    constructor
    · rintro ⟨⟨⟨hact, ⟨c, ⟨hc, h10, h14⟩, hcid⟩⟩, hfound⟩, hee⟩
      exact ⟨hact, ⟨c, hc, hcid, h10, h14⟩, hfound, hee⟩
    · rintro ⟨hact, ⟨c, hc, hcid, h10, h14⟩, hfound, hee⟩
      exact ⟨⟨⟨hact, ⟨c, ⟨hc, h10, h14⟩, hcid⟩⟩, hfound⟩, hee⟩
  · intro r hr
    obtain ⟨w, -, hf, rfl⟩ := mem_h2_employee.mp hr
    rw [violationFilter] at hf
    simp only [Bool.and_eq_true, beq_iff_eq] at hf
    exact hf.2

theorem filter_stage_spec_witness :
    violationFilter wdb wBig = true ∧ (joinEmployer wdb wBig).er_ee_viol = "E" := by
  have h1 : violationFilter wdb wBig = true :=
    (filter_stage_spec wdb wBig).1.mpr
      ⟨Or.inr rfl, ⟨⟨"C1", 2012⟩, by simp [wdb], rfl, by decide, by decide⟩, rfl, rfl⟩
  refine ⟨h1, (filter_stage_spec wdb wBig).2 (joinEmployer wdb wBig) ?_⟩
  rw [h2_employee_violations]
  exact List.mem_map_of_mem _ (List.mem_filter.mpr ⟨List.Mem.head _, h1⟩)

/-- A missing exclusion-list entry makes the whole run stop with the
assertion error. -/
lemma pipeline_error_of_missing (db : Database)
    (h : ∃ d ∈ non_guestworker_descs,
        ∀ r ∈ h2_employee_violations db, r.violation_desc ≠ d) :
    pipeline db = Except.error assertionMessage := by
  obtain ⟨d, hd, hnone⟩ := h
  have hmem : d ∈ missingDescs db := by
    rw [missingDescs, List.mem_filter]
    refine ⟨hd, ?_⟩
    rw [Bool.not_eq_true', List.any_eq_false]
    intro r hr
    simpa using hnone r hr
  have hne : (missingDescs db).isEmpty = false := by
    rcases hx : missingDescs db with - | ⟨x, xs⟩
    · rw [hx] at hmem; exact absurd hmem (List.not_mem_nil d)
    · rfl
  rw [pipeline, hne]
  rfl

/-- C3: if some exclusion-list entry never appears among the descriptions of
the employee-affecting filtered violations, the pipeline stops with the
assertion error and produces no output table. -/
theorem missing_exclusion_error (db : Database)
    (h : ∃ d ∈ non_guestworker_descs,
        ∀ r ∈ h2_employee_violations db, r.violation_desc ≠ d) :
    pipeline db = Except.error assertionMessage ∧
      ∀ out : List EmployerAggregate, pipeline db ≠ Except.ok out := by
  refine ⟨pipeline_error_of_missing db h, ?_⟩
  intro out hcontra
  rw [pipeline_error_of_missing db h] at hcontra
  exact Except.noConfusion hcontra

theorem missing_exclusion_error_witness :
    pipeline emptyDb = Except.error assertionMessage ∧
      ∀ out : List EmployerAggregate, pipeline emptyDb ≠ Except.ok out :=
  missing_exclusion_error emptyDb
    ⟨"17 Preferential treatment given to H-2A workers",
     by rw [non_guestworker_descs]; exact List.Mem.head _,
     by intro r hr; exact absurd hr (by simp [h2_employee_violations, emptyDb])⟩

/-- An empty message names no nonempty entry. -/
lemma not_msgMentions_of_length_pos {entry : String} (h : 0 < entry.length) :
    ¬ msgMentions assertionMessage entry := by
  rintro ⟨pre, post, heq⟩
  have hlen := congrArg String.length heq
  rw [assertionMessage] at hlen
  simp only [String.length_append] at hlen
  have : entry.length = 0 := by
    have h0 : ("" : String).length = 0 := rfl
    omega
  omega

/-- C4 counterexample: on the empty database the coverage check fails, the
pipeline raises the assertion error, yet the error message does not name the
missing exclusion-list entry. -/
theorem assertion_message_counterexample :
    "17 Preferential treatment given to H-2A workers" ∈ missingDescs emptyDb ∧
    pipeline emptyDb = Except.error assertionMessage ∧
    ¬ msgMentions assertionMessage
        "17 Preferential treatment given to H-2A workers" := by
  refine ⟨?_, ?_, not_msgMentions_of_length_pos (by decide)⟩
  · rw [missingDescs]
    refine List.mem_filter.mpr ⟨by rw [non_guestworker_descs]; exact List.Mem.head _, ?_⟩
    rw [Bool.not_eq_true', List.any_eq_false]
    intro r hr
    exact absurd hr (by simp [h2_employee_violations, emptyDb])
  · rw [pipeline]
    have h0 : (missingDescs emptyDb).isEmpty = false := by with_unfolding_all rfl
    rw [h0]
    rfl

/-- C4 (amended): when an exclusion-list entry is absent from the observed
descriptions the pipeline does raise the assertion error before any
aggregation, but the message is the bare assertion's empty message, which
names none of the missing entries. -/
theorem assertion_message_empty (db : Database)
    (h : ∃ d ∈ non_guestworker_descs,
        ∀ r ∈ h2_employee_violations db, r.violation_desc ≠ d) :
    pipeline db = Except.error assertionMessage ∧
      ∀ entry ∈ missingDescs db, ¬ msgMentions assertionMessage entry := by
  refine ⟨pipeline_error_of_missing db h, ?_⟩
  intro entry hentry
  have hmem : entry ∈ non_guestworker_descs := (List.mem_filter.mp hentry).1
  have hpos : 0 < entry.length := by
    have : ∀ d ∈ non_guestworker_descs, 0 < d.length := by decide
    exact this entry hmem
  exact not_msgMentions_of_length_pos hpos

theorem assertion_message_empty_witness :
    pipeline emptyDb = Except.error assertionMessage ∧
      ∀ entry ∈ missingDescs emptyDb, ¬ msgMentions assertionMessage entry :=
  assertion_message_empty emptyDb
    ⟨"17 Preferential treatment given to H-2A workers",
     by rw [non_guestworker_descs]; exact List.Mem.head _,
     by intro r hr; exact absurd hr (by simp [h2_employee_violations, emptyDb])⟩

/-- C5: the exclusion stage removes exactly the rows whose description is an
exact-string member of the fixed exclusion list: a row survives it if and
only if it passed the filter stage and its description is not in the list. -/
theorem exclusion_stage_spec (db : Database) (r : JoinedViolation) :
    r ∈ h2_guestworker_violations db ↔
      r ∈ h2_employee_violations db ∧ r.violation_desc ∉ non_guestworker_descs :=
  mem_h2_guestworker

theorem exclusion_stage_spec_witness :
    joinEmployer wdb wBig ∈ h2_guestworker_violations wdb := by
  refine (exclusion_stage_spec wdb (joinEmployer wdb wBig)).mpr ⟨?_, by decide⟩
  rw [h2_employee_violations]
  refine List.mem_map_of_mem _ (List.mem_filter.mpr ⟨List.Mem.head _, ?_⟩)
  with_unfolding_all rfl

/-- C6: for every employer group, `names` is the `" | "`-join of the distinct
legal names of the group (nulls normalized to `""`), sorted lexicographically
and without duplicates. -/
theorem names_summary_spec (db : Database) (a : EmployerAggregate)
    (ha : a ∈ employer_aggregates db) :
    ∃ l : List String,
      a.names = String.intercalate " | " l ∧
      l.Sorted (· ≤ ·) ∧ l.Nodup ∧
      (∀ s : String, s ∈ l ↔
        ∃ r ∈ groupRows db a.employer_id, r.er_legal_name.getD "" = s) := by
  obtain ⟨id, -, rfl⟩ := mem_employer_aggregates.mp ha
  refine ⟨_, rfl, List.sorted_insertionSort _ _,
    ((List.perm_insertionSort _ _).nodup_iff).mpr (List.nodup_dedup _), ?_⟩
  intro s
  rw [List.mem_insertionSort, List.mem_dedup, List.map_map]
  simp only [List.mem_map, Function.comp]
  constructor
  · rintro ⟨r, hr, rfl⟩; exact ⟨r, hr, rfl⟩
  · rintro ⟨r, hr, rfl⟩; exact ⟨r, hr, rfl⟩

theorem names_summary_spec_witness :
    ∃ l : List String,
      (⟨"E1", 15, "Acme Inc. | Acme, Inc."⟩ : EmployerAggregate).names =
        String.intercalate " | " l ∧
      l.Sorted (· ≤ ·) ∧ l.Nodup ∧
      (∀ s : String, s ∈ l ↔
        ∃ r ∈ groupRows db6 "E1", r.er_legal_name.getD "" = s) := by
  refine names_summary_spec db6 _ ?_
  have hm : employer_aggregates db6 = [⟨"E1", 15, "Acme Inc. | Acme, Inc."⟩] := by
    with_unfolding_all rfl
  rw [hm]
  exact List.Mem.head _

/-- C7: the ranking stage retains exactly the aggregates whose back-wage total
is at least 100000 and sorts them descending by that total; a total of exactly
100000 passes the threshold mask and a total of 99999.99 fails it. -/
theorem ranking_stage_spec (db : Database) :
    (∀ a : EmployerAggregate, a ∈ top_total_h2_backwages db ↔
        a ∈ employer_aggregates db ∧ (100000 : ℚ) ≤ a.h2_backwages) ∧
    (top_total_h2_backwages db).Sorted rankedAbove ∧
    thresholdKeep ⟨"at-threshold", 100000, ""⟩ = true ∧
    thresholdKeep ⟨"just-below", (9999999 : ℚ) / 100, ""⟩ = false := by
  refine ⟨fun a => mem_top_total, List.sorted_insertionSort rankedAbove _,
    decide_eq_true (le_refl _), decide_eq_false ?_⟩
  norm_num

theorem ranking_stage_spec_witness :
    (⟨"11-1111111", 150000, "Acme Inc."⟩ : EmployerAggregate) ∈
      top_total_h2_backwages wdb := by
  refine ((ranking_stage_spec wdb).1 _).mpr ⟨?_, by norm_num⟩
  have hm : employer_aggregates wdb = [⟨"11-1111111", 150000, "Acme Inc."⟩] := by
    with_unfolding_all rfl
  rw [hm]
  exact List.Mem.head _

/-- C8: if every back-wage amount in the input is null or non-negative, then
every aggregated `h2_backwages` value is non-negative. -/
theorem aggregates_nonneg (db : Database)
    (hnn : ∀ v ∈ db.violations, 0 ≤ v.amt_bw_assessed.getD 0)
    (a : EmployerAggregate) (ha : a ∈ employer_aggregates db) :
    0 ≤ a.h2_backwages := by
  obtain ⟨id, -, rfl⟩ := mem_employer_aggregates.mp ha
  show 0 ≤ ((groupRows db id).map fun r => r.amt_bw_assessed.getD 0).sum
  refine List.sum_nonneg ?_
  intro x hx
  obtain ⟨r, hr, rfl⟩ := List.mem_map.mp hx
  rw [groupRows_eq] at hr
  obtain ⟨v, hv, rfl⟩ := List.mem_map.mp hr
  exact hnn v (List.mem_filter.mp hv).1

theorem aggregates_nonneg_witness :
    0 ≤ (⟨"11-1111111", 150000, "Acme Inc."⟩ : EmployerAggregate).h2_backwages := by
  refine aggregates_nonneg wdb ?_ _ ?_
  · intro v hv
    rcases List.mem_cons.mp hv with rfl | hm
    · norm_num [wBig]
    · obtain ⟨d, -, rfl⟩ := List.mem_map.mp hm
      simp [coverViolation]
  · have hm : employer_aggregates wdb = [⟨"11-1111111", 150000, "Acme Inc."⟩] := by
      with_unfolding_all rfl
    rw [hm]
    exact List.Mem.head _

/-- C9: a violation whose case has no employer record gets null employer
columns from the left join, belongs to no employer group, and every aggregate
in the output is keyed by an identifier witnessed by matched rows only. -/
theorem join_miss_dropped (db : Database) (v : Violation)
    (hmiss : employer_basics db v.case_id = none) :
    (joinEmployer db v).employer_id = none ∧
    (joinEmployer db v).er_legal_name = none ∧
    (∀ id : String, joinEmployer db v ∉ groupRows db id) ∧
    (∀ a ∈ employer_aggregates db, ∃ r ∈ groupRows db a.employer_id,
        r.employer_id = some a.employer_id) := by
  have h1 : (joinEmployer db v).employer_id = none := by
    simp [joinEmployer, hmiss]
  refine ⟨h1, by simp [joinEmployer, hmiss], ?_, ?_⟩
  · intro id hmem
    have h2 := (mem_groupRows.mp hmem).2
    rw [h1] at h2
    exact Option.noConfusion h2
  · intro a ha
    obtain ⟨id, hid, rfl⟩ := mem_employer_aggregates.mp ha
    obtain ⟨r, hr, hrid⟩ := mem_groupKeys.mp hid
    exact ⟨r, mem_groupRows.mpr ⟨hr, hrid⟩, hrid⟩

theorem join_miss_dropped_witness :
    (joinEmployer dbMiss vMiss).employer_id = none ∧
    (joinEmployer dbMiss vMiss).er_legal_name = none ∧
    (∀ id : String, joinEmployer dbMiss vMiss ∉ groupRows dbMiss id) ∧
    (∀ a ∈ employer_aggregates dbMiss, ∃ r ∈ groupRows dbMiss a.employer_id,
        r.employer_id = some a.employer_id) :=
  join_miss_dropped dbMiss vMiss rfl

/-- The deduplication of a nonempty constant list is the singleton. -/
lemma dedup_of_constant {α : Type} [DecidableEq α] {n : α} {l : List α}
    (hne : l ≠ []) (hall : ∀ x ∈ l, x = n) : l.dedup = [n] := by
  induction l with
  | nil => exact absurd rfl hne
  | cons a t ih =>
    have ha : a = n := hall a (List.mem_cons_self a t)
    rcases t with - | ⟨b, u⟩
    · subst ha; simp
    · have ih2 := ih (by simp) fun x hx => hall x (List.mem_cons_of_mem _ hx)
      have hab : a = b := by rw [ha, hall b (by simp)]
      rw [List.dedup_cons_of_mem (hab ▸ List.mem_cons_self b u), ih2]

/-- C10: an employer group whose normalized legal names are all one value `n`
(in particular, all-null groups with `n = ""`) has `names = n`, with no
delimiter inserted. -/
theorem single_name_group (db : Database) (a : EmployerAggregate) (n : String)
    (ha : a ∈ employer_aggregates db)
    (hn : ∀ r ∈ groupRows db a.employer_id, r.er_legal_name.getD "" = n) :
    a.names = n := by
  obtain ⟨id, hid, rfl⟩ := mem_employer_aggregates.mp ha
  obtain ⟨r0, hr0, hr0id⟩ := mem_groupKeys.mp hid
  have hr0g : r0 ∈ groupRows db id := mem_groupRows.mpr ⟨hr0, hr0id⟩
  show join_unique_strings ((groupRows db id).map fun r => r.er_legal_name) = n
  rw [join_unique_strings]
  have hne : (((groupRows db id).map fun r => r.er_legal_name).map
      fun o => o.getD "") ≠ [] :=
    List.ne_nil_of_mem (List.mem_map_of_mem _ (List.mem_map_of_mem _ hr0g))
  have hconst : ∀ x ∈ (((groupRows db id).map fun r => r.er_legal_name).map
      fun o => o.getD ""), x = n := by
    intro x hx
    rw [List.map_map] at hx
    obtain ⟨r, hr, rfl⟩ := List.mem_map.mp hx
    exact hn r hr
  rw [dedup_of_constant hne hconst]
  rfl

theorem single_name_group_witness :
    (⟨"E1", 3, ""⟩ : EmployerAggregate).names = "" := by
  refine single_name_group dbNull _ "" ?_ ?_
  · have hm : employer_aggregates dbNull = [⟨"E1", 3, ""⟩] := by
      with_unfolding_all rfl
    rw [hm]
    exact List.Mem.head _
  · intro r hr
    have hg : groupRows dbNull (⟨"E1", 3, ""⟩ : EmployerAggregate).employer_id =
        [⟨"C1", "H2A", "E", true, "d", some 3, some "E1", none⟩] := by
      with_unfolding_all rfl
    rw [hg, List.mem_singleton] at hr
    subst hr
    rfl

end H2BackWages
